import Mathlib

/-!
Verification of the racr-parser grammar against its specification.

The crate under verification exposes nine parser entry points
(`AccessParser`, `PathParser`, `ModuleParser`, `UseParser`, `ItemParser`,
`RegisterDefinitionParser`, `PeripheralDefinitionParser`,
`DeviceDefinitionParser`, `ContentParser`) over a lalrpop grammar.  The
grammar file itself is not part of the published source tree; the lexer and
productions below are therefore modelled from the specification (sections
3, 4 and 6) and checked against the doc-tests of `src/lib.rs`.

All recursion is fuel-based so that every definition reduces inside the
kernel; fuel is always instantiated generously enough (proportional to the
input length) that it is never exhausted on inputs the grammar accepts.
-/

namespace Racr

/-! ## The AST data model (the external `racr` crate) -/

/-- Modelled from the spec: `Access` — tagged variant
`{ReadOnly, WriteOnly, ReadWrite}` of the external `racr` crate. -/
inductive Access where
  | ReadOnly
  | WriteOnly
  | ReadWrite
deriving DecidableEq, Repr

/-- Modelled from the spec: `Path` — ordered sequence of identifier
segments (`racr::Path`). -/
structure Path where
  segments : List String
deriving DecidableEq, Repr

/-- Modelled from the spec: `UseTree` — recursive variant `Ident(name)`
(leaf) or `Path{path_segment, sub_tree}` (`racr::UseTree`). -/
inductive UseTree where
  | Ident (name : String)
  | Path (path_segment : String) (sub_tree : UseTree)
deriving DecidableEq, Repr

/-- Modelled from the spec: `Use` — `{tree: UseTree}` (`racr::Use`). -/
structure Use where
  tree : UseTree
deriving DecidableEq, Repr

/-- Modelled from the spec: `FieldInstance` — `{ident, description,
bit_start, bit_end, access}` (`racr::FieldInstance`). -/
structure FieldInstance where
  ident : String
  description : Option String
  bit_start : Nat
  bit_end : Nat
  access : Option Access
deriving DecidableEq, Repr

/-- Modelled from the spec: `RegisterDefinition` — `{access, ident,
description, size, reset_value, fields}` (`racr::RegisterDefinition`). -/
structure RegisterDefinition where
  access : Access
  ident : String
  description : Option String
  size : Nat
  reset_value : Option Nat
  fields : List FieldInstance
deriving DecidableEq, Repr

/-- Modelled from the spec: `RegisterType` — `Single{path}` or
`Array{path, size}` (`racr::RegisterType`). -/
inductive RegisterType where
  | Single (path : Path)
  | Array (path : Path) (size : Nat)
deriving DecidableEq, Repr

/-- Modelled from the spec: `RegisterInstance` — `{ident, ty}`
(`racr::RegisterInstance`); the field `instance` of `RegisterSlot` is
rendered `inst` because `instance` is a reserved word of Lean. -/
structure RegisterInstance where
  ident : String
  ty : RegisterType
deriving DecidableEq, Repr

/-- Modelled from the spec: `RegisterSlot` — `Single{instance, offset}` or
`Overloaded{alternatives, offset}` (`racr::RegisterSlot`). -/
inductive RegisterSlot where
  | Single (inst : RegisterInstance) (offset : Nat)
  | Overloaded (alternatives : List RegisterInstance) (offset : Nat)
deriving DecidableEq, Repr

/-- Modelled from the spec: `PeripheralDefinition` — `{ident, description,
registers}` (`racr::PeripheralDefinition`). -/
structure PeripheralDefinition where
  ident : String
  description : Option String
  registers : List RegisterSlot
deriving DecidableEq, Repr

/-- Modelled from the spec: `PeripheralInstance` — `{ident, path, address}`
(`racr::PeripheralInstance`). -/
structure PeripheralInstance where
  ident : String
  path : Path
  address : Nat
deriving DecidableEq, Repr

/-- Modelled from the spec: `DeviceDefinition` — `{ident, description,
peripherals}` (`racr::DeviceDefinition`). -/
structure DeviceDefinition where
  ident : String
  description : Option String
  peripherals : List PeripheralInstance
deriving DecidableEq, Repr

/-- Modelled from the spec: `Item` — the union of everything that may
appear at content scope; `Module` content is inlined into the `module`
constructor so that the type is a plain nested inductive
(`racr::Item`). -/
inductive Item where
  | use (u : Use)
  | module (ident : String) (content : Option (List Item))
  | register (r : RegisterDefinition)
  | peripheral (p : PeripheralDefinition)
  | device (d : DeviceDefinition)

/-- Modelled from the spec: `Module` — `{ident, content}` with
`content = None` for `mod foo;` and `Some items` for a block module
(`racr::Module`). -/
structure Module where
  ident : String
  content : Option (List Item)

/-- Conversion used by the `Item` grammar production (`.into()` in the
doc-tests). -/
def Item.ofModule (m : Module) : Item :=
  .module m.ident m.content

/-! ## Lexer

Modelled from the spec (section 4.1): identifiers, keywords, decimal and
`0x`-prefixed hexadecimal integers, double-quoted string literals, fixed
punctuation, with whitespace and comments discarded. -/

/-- Token classes produced by the lexer. -/
inductive Tok where
  | ident (s : String)
  | kwMod
  | kwUse
  | kwRegister
  | kwPeripheral
  | kwDevice
  | kwCrate
  | kwReadOnly
  | kwWriteOnly
  | kwReadWrite
  | num (n : Nat)
  | str (s : String)
  | colonColon
  | colon
  | lbrace
  | rbrace
  | lparen
  | rparen
  | lbrack
  | rbrack
  | dotdot
  | atSign
  | eq
  | semi
  | comma
  | pipe
  | pound
deriving DecidableEq, Repr

/-- Lexical errors; each carries the remaining input, whose head is the
offending character. -/
inductive LexErr where
  | unrecognized (rest : List Char)
  | unterminatedStr (rest : List Char)
  | fuelOut (rest : List Char)
deriving DecidableEq, Repr

def isIdentStart (c : Char) : Bool :=
  c.isAlpha || c = '_'

def isIdentChar (c : Char) : Bool :=
  c.isAlphanum || c = '_'

def isHexDigit (c : Char) : Bool :=
  c.isDigit || ('a' ≤ c && c ≤ 'f') || ('A' ≤ c && c ≤ 'F')

def hexDigitVal (c : Char) : Nat :=
  if c.isDigit then c.toNat - 48
  else if 'a' ≤ c && c ≤ 'f' then c.toNat - 87
  else c.toNat - 55

def decDigitVal (c : Char) : Nat :=
  c.toNat - 48

def digitsVal (base : Nat) (f : Char → Nat) (ds : List Char) : Nat :=
  ds.foldl (fun n c => n * base + f c) 0

/-- The reserved keywords of the grammar; every other word is an
identifier. -/
def keywordTok (s : String) : Option Tok :=
  if s = "mod" then some .kwMod
  else if s = "use" then some .kwUse
  else if s = "register" then some .kwRegister
  else if s = "peripheral" then some .kwPeripheral
  else if s = "device" then some .kwDevice
  else if s = "crate" then some .kwCrate
  else if s = "ReadOnly" then some .kwReadOnly
  else if s = "WriteOnly" then some .kwWriteOnly
  else if s = "ReadWrite" then some .kwReadWrite
  else none

/-- Classify a lexed word as a keyword token or an identifier. -/
def mkWord (s : String) : Tok :=
  (keywordTok s).getD (.ident s)

/-- Does the input continue with a hexadecimal literal body (`x` followed
by a hex digit)?  Used after a leading `0`. -/
def startsHex : List Char → Bool
  | 'x' :: d :: _ => isHexDigit d
  | _ => false

/-- Skip to just past the closing `*/` of a block comment (to the end of
input when unterminated). -/
def skipBlockF : Nat → List Char → List Char
  | _, [] => []
  | 0, l => l
  | _ + 1, '*' :: '/' :: rest => rest
  | fuel + 1, _ :: rest => skipBlockF fuel rest

/-- Split a double-quoted string body: the characters before the closing
quote and the input after it, or `none` when unterminated. -/
def splitStrF : Nat → List Char → Option (List Char × List Char)
  | _, [] => none
  | 0, _ => none
  | fuel + 1, c :: rest =>
    if c.toNat = 34 then some ([], rest)
    else
      match splitStrF fuel rest with
      | some (a, b) => some (c :: a, b)
      | none => none

/-- One-character punctuation and the two-character `::` and `..`
operators. -/
def punctTok (c : Char) (cs : List Char) : Option (Tok × List Char) :=
  if c = ':' then
    match cs with
    | ':' :: rest => some (.colonColon, rest)
    | _ => some (.colon, cs)
  else if c = '.' then
    match cs with
    | '.' :: rest => some (.dotdot, rest)
    | _ => none
  else if c.toNat = 123 then some (.lbrace, cs)
  else if c.toNat = 125 then some (.rbrace, cs)
  else if c = '(' then some (.lparen, cs)
  else if c = ')' then some (.rparen, cs)
  else if c = '[' then some (.lbrack, cs)
  else if c = ']' then some (.rbrack, cs)
  else if c = '@' then some (.atSign, cs)
  else if c = '=' then some (.eq, cs)
  else if c = ';' then some (.semi, cs)
  else if c = ',' then some (.comma, cs)
  else if c = '|' then some (.pipe, cs)
  else if c = '#' then some (.pound, cs)
  else none

/-- The lexer, modelled from the spec (section 4.1).  Fuel-recursive;
every step consumes at least one character, so `length + 1` fuel always
suffices. -/
def lexF : Nat → List Char → Except LexErr (List Tok)
  | _, [] => .ok []
  | 0, l => .error (.fuelOut l)
  | fuel + 1, c :: cs =>
    if isIdentStart c then
      match lexF fuel (List.dropWhile isIdentChar cs) with
      | .ok ts => .ok (mkWord (String.mk (c :: List.takeWhile isIdentChar cs)) :: ts)
      | .error e => .error e
    else if c.isDigit then
      if c = '0' && startsHex cs then
        match lexF fuel (List.dropWhile isHexDigit cs.tail) with
        | .ok ts => .ok (.num (digitsVal 16 hexDigitVal (List.takeWhile isHexDigit cs.tail)) :: ts)
        | .error e => .error e
      else
        match lexF fuel (List.dropWhile Char.isDigit cs) with
        | .ok ts => .ok (.num (digitsVal 10 decDigitVal (c :: List.takeWhile Char.isDigit cs)) :: ts)
        | .error e => .error e
    else if c.isWhitespace then lexF fuel cs
    else if c = '/' then
      match cs with
      | '/' :: rest => lexF fuel (List.dropWhile (fun d => d ≠ '\n') rest)
      | '*' :: rest => lexF fuel (skipBlockF rest.length rest)
      | _ => .error (.unrecognized (c :: cs))
    else if c.toNat = 34 then
      match splitStrF (cs.length + 1) cs with
      | some (content, rest) =>
        match lexF fuel rest with
        | .ok ts => .ok (.str (String.mk content) :: ts)
        | .error e => .error e
      | none => .error (.unterminatedStr (c :: cs))
    else
      match punctTok c cs with
      | some (t, rest) =>
        match lexF fuel rest with
        | .ok ts => .ok (t :: ts)
        | .error e => .error e
      | none => .error (.unrecognized (c :: cs))

/-- Lex a whole character list with always-sufficient fuel. -/
def lexTop (l : List Char) : Except LexErr (List Tok) :=
  lexF (l.length + 1) l

/-! ## Parsers

Modelled from the spec (section 4): recursive-descent productions over the
token stream.  A `ParseErr.synErr` carries the unconsumed token stream at
the point of failure; its head is the first offending token (an empty list
means the offence is the end of input). -/

/-- Parse errors: a syntax error positioned at the first offending token,
a propagated lexical error, or fuel exhaustion (never reached from the
entry points, whose fuel is proportional to the input length). -/
inductive ParseErr where
  | synErr (rest : List Tok)
  | lexErr (e : LexErr)
  | fuelExhausted
deriving DecidableEq, Repr

/-- Parse an optional leading `#[doc = "…"]` attribute, yielding its
string payload as a description. -/
def parseAttr (ts : List Tok) : Except ParseErr (Option String × List Tok) :=
  match ts with
  | .pound :: rest =>
    match rest with
    | .lbrack :: .ident d :: .eq :: .str s :: .rbrack :: r =>
      if d = "doc" then .ok (some s, r) else .error (.synErr rest)
    | _ => .error (.synErr rest)
  | _ => .ok (none, ts)

/-- `Access` production: exactly one access keyword. -/
def parseAccessT : List Tok → Except ParseErr (Access × List Tok)
  | .kwReadOnly :: r => .ok (.ReadOnly, r)
  | .kwWriteOnly :: r => .ok (.WriteOnly, r)
  | .kwReadWrite :: r => .ok (.ReadWrite, r)
  | ts => .error (.synErr ts)

/-- A single numeric literal token (decimal or hexadecimal, already
reduced to its value by the lexer). -/
def parseNum : List Tok → Except ParseErr (Nat × List Tok)
  | .num n :: r => .ok (n, r)
  | ts => .error (.synErr ts)

/-- Zero or more repetitions of `:: identifier`, folded into the ordered
segment sequence. -/
def parsePathRest : Nat → List Tok → List String × List Tok
  | fuel + 1, .colonColon :: .ident s :: rest =>
    let (segs, r) := parsePathRest fuel rest
    (s :: segs, r)
  | _, ts => ([], ts)

/-- `Path` production: one identifier then zero or more `:: identifier`. -/
def parsePathT (ts : List Tok) : Except ParseErr (Path × List Tok) :=
  match ts with
  | .ident s :: rest =>
    let (segs, r) := parsePathRest (rest.length + 1) rest
    .ok ({ segments := s :: segs }, r)
  | _ => .error (.synErr ts)

/-- `UseTree := Ident | identifier "::" UseTree`, right-recursive. -/
def parseUseTreeInnerF : Nat → List Tok → Except ParseErr (UseTree × List Tok)
  | fuel + 1, .ident s :: .colonColon :: rest =>
    match parseUseTreeInnerF fuel rest with
    | .ok (t, r) => .ok (.Path s t, r)
    | .error e => .error e
  | _, .ident s :: rest => .ok (.Ident s, rest)
  | _, ts => .error (.synErr ts)

/-- `UseTree` entry: the reserved word `crate` is additionally accepted as
the leading segment (exercised by the `ContentParser` doc-test). -/
def parseUseTreeT (ts : List Tok) : Except ParseErr (UseTree × List Tok) :=
  match ts with
  | .kwCrate :: .colonColon :: rest =>
    match parseUseTreeInnerF (rest.length + 1) rest with
    | .ok (t, r) => .ok (.Path ("crate") t, r)
    | .error e => .error e
  | _ => parseUseTreeInnerF (ts.length + 1) ts

/-- `Use := "use" UseTree ";"`. -/
def parseUseT (ts : List Tok) : Except ParseErr (Use × List Tok) :=
  match ts with
  | .kwUse :: rest =>
    match parseUseTreeT rest with
    | .ok (t, r) =>
      match r with
      | .semi :: r2 => .ok ({ tree := t }, r2)
      | r2 => .error (.synErr r2)
    | .error e => .error e
  | _ => .error (.synErr ts)

/-- The bracketed part of a field after its optional attribute and access
override: `identifier "[" bit_start (".." bit_end)? "]"`; a single-index
field sets `bit_start = bit_end` to that index. -/
def parseFieldCore (desc : Option String) (acc : Option Access) (ts2 : List Tok) :
    Except ParseErr (FieldInstance × List Tok) :=
  match ts2 with
  | .ident name :: .lbrack :: rest =>
    match rest with
    | .num a :: .dotdot :: .num b :: .rbrack :: rest2 =>
      .ok ({ ident := name, description := desc, bit_start := a,
             bit_end := b, access := acc }, rest2)
    | .num a :: .rbrack :: rest2 =>
      .ok ({ ident := name, description := desc, bit_start := a,
             bit_end := a, access := acc }, rest2)
    | r => .error (.synErr r)
  | r => .error (.synErr r)

/-- `Field := attr? Access? identifier "[" bit_start (".." bit_end)? "]"`. -/
def parseField (ts : List Tok) : Except ParseErr (FieldInstance × List Tok) :=
  match parseAttr ts with
  | .error e => .error e
  | .ok (desc, ts1) =>
    match ts1 with
    | .kwReadOnly :: r => parseFieldCore desc (some .ReadOnly) r
    | .kwWriteOnly :: r => parseFieldCore desc (some .WriteOnly) r
    | .kwReadWrite :: r => parseFieldCore desc (some .ReadWrite) r
    | _ => parseFieldCore desc none ts1

/-- The continuation of a brace-delimited comma-separated list after its
first element: `("," elem)* ","? "}"`, with the closing brace consumed. -/
def sepListRest {α : Type} (elem : List Tok → Except ParseErr (α × List Tok))
    (fuel : Nat) (ts : List Tok) : Except ParseErr (List α × List Tok) :=
  match ts with
  | .rbrace :: r => .ok ([], r)
  | .comma :: .rbrace :: r => .ok ([], r)
  | .comma :: ts2 =>
    match fuel with
    | 0 => .error .fuelExhausted
    | fuel + 1 =>
      match elem ts2 with
      | .ok (x, r) =>
        match sepListRest elem fuel r with
        | .ok (xs, r2) => .ok (x :: xs, r2)
        | .error e => .error e
      | .error e => .error e
  | ts2 => .error (.synErr ts2)

/-- A brace-delimited comma-separated list body with at least one element
and an optional trailing comma, the closing brace consumed. -/
def sepList {α : Type} (elem : List Tok → Except ParseErr (α × List Tok))
    (fuel : Nat) (ts : List Tok) : Except ParseErr (List α × List Tok) :=
  match elem ts with
  | .ok (x, r) =>
    match sepListRest elem fuel r with
    | .ok (xs, r2) => .ok (x :: xs, r2)
    | .error e => .error e
  | .error e => .error e

/-- `RegisterDefinition` production after the attribute:
`Access "register" "[" size "]" identifier ("=" number)? "{" fields "}"`. -/
def parseRegisterBody (desc : Option String) (ts1 : List Tok) :
    Except ParseErr (RegisterDefinition × List Tok) :=
  match parseAccessT ts1 with
  | .error e => .error e
  | .ok (acc, ts2) =>
    match ts2 with
    | .kwRegister :: .lbrack :: r1 =>
      match parseNum r1 with
      | .error e => .error e
      | .ok (size, r2) =>
        match r2 with
        | .rbrack :: .ident name :: r3 =>
          let finish (rv : Option Nat) (r4 : List Tok) :
              Except ParseErr (RegisterDefinition × List Tok) :=
            match r4 with
            | .lbrace :: r5 =>
              match sepList parseField (r5.length + 1) r5 with
              | .ok (fields, r6) =>
                .ok ({ access := acc, ident := name, description := desc,
                       size := size, reset_value := rv, fields := fields }, r6)
              | .error e => .error e
            | r5 => .error (.synErr r5)
          match r3 with
          | .eq :: r4 =>
            match parseNum r4 with
            | .ok (rv, r5) => finish (some rv) r5
            | .error e => .error e
          | _ => finish none r3
        | r3 => .error (.synErr r3)
    | _ => .error (.synErr ts2)

/-- `RegisterDefinition` entry: optional attribute then the body. -/
def parseRegisterEntry (ts : List Tok) :
    Except ParseErr (RegisterDefinition × List Tok) :=
  match parseAttr ts with
  | .error e => .error e
  | .ok (desc, ts1) => parseRegisterBody desc ts1

/-- One alternative of an overloaded slot: `identifier ":" Path`. -/
def parseRegInstAlt (ts : List Tok) :
    Except ParseErr (RegisterInstance × List Tok) :=
  match ts with
  | .ident name :: .colon :: rest =>
    match parsePathT rest with
    | .ok (p, r) => .ok ({ ident := name, ty := .Single p }, r)
    | .error e => .error e
  | _ => .error (.synErr ts)

/-- Further `"|" alternative` repetitions of an overloaded slot. -/
def parseAltsRest : Nat → List Tok → Except ParseErr (List RegisterInstance × List Tok)
  | fuel + 1, .pipe :: rest =>
    match parseRegInstAlt rest with
    | .ok (a, r) =>
      match parseAltsRest fuel r with
      | .ok (more, r2) => .ok (a :: more, r2)
      | .error e => .error e
    | .error e => .error e
  | 0, .pipe :: _ => .error .fuelExhausted
  | _, ts => .ok ([], ts)

/-- `Slot := SingleSlot | OverloadedSlot`; an overloaded slot requires at
least one `"|" alternative` after the first alternative. -/
def parseSlot (ts : List Tok) : Except ParseErr (RegisterSlot × List Tok) :=
  match ts with
  | .lparen :: rest =>
    match parseRegInstAlt rest with
    | .ok (a1, r1) =>
      match r1 with
      | .pipe :: r2 =>
        match parseRegInstAlt r2 with
        | .ok (a2, r3) =>
          match parseAltsRest (r3.length + 1) r3 with
          | .ok (more, r4) =>
            match r4 with
            | .rparen :: .atSign :: r5 =>
              match parseNum r5 with
              | .ok (off, r6) => .ok (.Overloaded (a1 :: a2 :: more) off, r6)
              | .error e => .error e
            | r5 => .error (.synErr r5)
          | .error e => .error e
        | .error e => .error e
      | r2 => .error (.synErr r2)
    | .error e => .error e
  | .ident name :: .colon :: .lbrack :: rest =>
    match parsePathT rest with
    | .ok (p, r1) =>
      match r1 with
      | .semi :: r2 =>
        match parseNum r2 with
        | .ok (size, r3) =>
          match r3 with
          | .rbrack :: .atSign :: r4 =>
            match parseNum r4 with
            | .ok (off, r5) =>
              .ok (.Single { ident := name, ty := .Array p size } off, r5)
            | .error e => .error e
          | r4 => .error (.synErr r4)
        | .error e => .error e
      | r2 => .error (.synErr r2)
    | .error e => .error e
  | .ident name :: .colon :: rest =>
    match parsePathT rest with
    | .ok (p, r1) =>
      match r1 with
      | .atSign :: r2 =>
        match parseNum r2 with
        | .ok (off, r3) =>
          .ok (.Single { ident := name, ty := .Single p } off, r3)
        | .error e => .error e
      | r2 => .error (.synErr r2)
    | .error e => .error e
  | _ => .error (.synErr ts)

/-- `PeripheralDefinition` body after the attribute:
`"peripheral" identifier "{" Slot ("," Slot)* ","? "}"`. -/
def parsePeripheralBody (desc : Option String) (ts1 : List Tok) :
    Except ParseErr (PeripheralDefinition × List Tok) :=
  match ts1 with
  | .kwPeripheral :: .ident name :: .lbrace :: r =>
    match sepList parseSlot (r.length + 1) r with
    | .ok (slots, r2) =>
      .ok ({ ident := name, description := desc, registers := slots }, r2)
    | .error e => .error e
  | _ => .error (.synErr ts1)

/-- `PeripheralDefinition` entry: optional attribute then the body. -/
def parsePeripheralEntry (ts : List Tok) :
    Except ParseErr (PeripheralDefinition × List Tok) :=
  match parseAttr ts with
  | .error e => .error e
  | .ok (desc, ts1) => parsePeripheralBody desc ts1

/-- One peripheral instance of a device: `identifier ":" Path "@" address`. -/
def parsePerInst (ts : List Tok) :
    Except ParseErr (PeripheralInstance × List Tok) :=
  match ts with
  | .ident name :: .colon :: rest =>
    match parsePathT rest with
    | .ok (p, r1) =>
      match r1 with
      | .atSign :: r2 =>
        match parseNum r2 with
        | .ok (addr, r3) =>
          .ok ({ ident := name, path := p, address := addr }, r3)
        | .error e => .error e
      | r2 => .error (.synErr r2)
    | .error e => .error e
  | _ => .error (.synErr ts)

/-- `DeviceDefinition` body after the attribute:
`"device" identifier "{" inst ("," inst)* ","? "}"`. -/
def parseDeviceBody (desc : Option String) (ts1 : List Tok) :
    Except ParseErr (DeviceDefinition × List Tok) :=
  match ts1 with
  | .kwDevice :: .ident name :: .lbrace :: r =>
    match sepList parsePerInst (r.length + 1) r with
    | .ok (insts, r2) =>
      .ok ({ ident := name, description := desc, peripherals := insts }, r2)
    | .error e => .error e
  | _ => .error (.synErr ts1)

/-- `DeviceDefinition` entry: optional attribute then the body. -/
def parseDeviceEntry (ts : List Tok) :
    Except ParseErr (DeviceDefinition × List Tok) :=
  match parseAttr ts with
  | .error e => .error e
  | .ok (desc, ts1) => parseDeviceBody desc ts1

/-- The items of a module block, up to and including the closing brace.
The item dispatch (`Item := Module | Use | RegisterDefinition |
PeripheralDefinition | DeviceDefinition`, after an optional attribute) is
inlined so that the recursion is structural on the fuel. -/
def parseManyItems : Nat → List Tok → Except ParseErr (List Item × List Tok)
  | 0, _ => .error .fuelExhausted
  | fuel + 1, ts =>
    match ts with
    | .rbrace :: r => .ok ([], r)
    | _ =>
      let step : Except ParseErr (Item × List Tok) :=
        match parseAttr ts with
        | .error e => .error e
        | .ok (desc, ts1) =>
          match ts1 with
          | .kwUse :: _ =>
            match parseUseT ts1 with
            | .ok (u, r) => .ok (.use u, r)
            | .error e => .error e
          | .kwMod :: .ident name :: .semi :: r => .ok (.module name none, r)
          | .kwMod :: .ident name :: .lbrace :: r =>
            match parseManyItems fuel r with
            | .ok (items, r2) => .ok (.module name (some items), r2)
            | .error e => .error e
          | .kwReadOnly :: _ | .kwWriteOnly :: _ | .kwReadWrite :: _ =>
            match parseRegisterBody desc ts1 with
            | .ok (rd, r) => .ok (.register rd, r)
            | .error e => .error e
          | .kwPeripheral :: _ =>
            match parsePeripheralBody desc ts1 with
            | .ok (p, r) => .ok (.peripheral p, r)
            | .error e => .error e
          | .kwDevice :: _ =>
            match parseDeviceBody desc ts1 with
            | .ok (d, r) => .ok (.device d, r)
            | .error e => .error e
          | ts2 => .error (.synErr ts2)
      match step with
      | .ok (it, r) =>
        match parseManyItems fuel r with
        | .ok (items, r2) => .ok (it :: items, r2)
        | .error e => .error e
      | .error e => .error e

/-- `Item` production: optional attribute, then dispatch on the leading
keyword; block modules recurse through `parseManyItems`. -/
def parseItemF (fuel : Nat) (ts : List Tok) : Except ParseErr (Item × List Tok) :=
  match parseAttr ts with
  | .error e => .error e
  | .ok (desc, ts1) =>
    match ts1 with
    | .kwUse :: _ =>
      match parseUseT ts1 with
      | .ok (u, r) => .ok (.use u, r)
      | .error e => .error e
    | .kwMod :: .ident name :: .semi :: r => .ok (.module name none, r)
    | .kwMod :: .ident name :: .lbrace :: r =>
      match parseManyItems fuel r with
      | .ok (items, r2) => .ok (.module name (some items), r2)
      | .error e => .error e
    | .kwReadOnly :: _ | .kwWriteOnly :: _ | .kwReadWrite :: _ =>
      match parseRegisterBody desc ts1 with
      | .ok (rd, r) => .ok (.register rd, r)
      | .error e => .error e
    | .kwPeripheral :: _ =>
      match parsePeripheralBody desc ts1 with
      | .ok (p, r) => .ok (.peripheral p, r)
      | .error e => .error e
    | .kwDevice :: _ =>
      match parseDeviceBody desc ts1 with
      | .ok (d, r) => .ok (.device d, r)
      | .error e => .error e
    | ts2 => .error (.synErr ts2)

/-- `Module` production: optional attribute (accepted and discarded, as
`Module` carries no description field), `"mod" identifier`, then `";"` for
a terminal module or a brace-delimited item block. -/
def parseModuleEntry (ts : List Tok) : Except ParseErr (Module × List Tok) :=
  match parseAttr ts with
  | .error e => .error e
  | .ok (_, ts1) =>
    match ts1 with
    | .kwMod :: .ident name :: .semi :: r => .ok ({ ident := name, content := none }, r)
    | .kwMod :: .ident name :: .lbrace :: r =>
      match parseManyItems (2 * r.length + 4) r with
      | .ok (items, r2) => .ok ({ ident := name, content := some items }, r2)
      | .error e => .error e
    | ts2 => .error (.synErr ts2)

/-- `Content := Item*`, up to the end of input. -/
def parseContentItems : Nat → List Tok → Except ParseErr (List Item)
  | _, [] => .ok []
  | 0, _ => .error .fuelExhausted
  | fuel + 1, ts =>
    match parseItemF fuel ts with
    | .ok (it, r) =>
      match parseContentItems fuel r with
      | .ok items => .ok (it :: items)
      | .error e => .error e
    | .error e => .error e

/-! ## Entry points

One per grammar root, as exported by `src/lib.rs`.  Each lexes the whole
source string, runs its production, and requires the entire token stream
to be consumed, mirroring the lalrpop entry-point contract. -/

/-- Run a token-level production as a whole-string entry point. -/
def runParser {α : Type} (p : List Tok → Except ParseErr (α × List Tok))
    (input : String) : Except ParseErr α :=
  match lexTop input.data with
  | .error e => .error (.lexErr e)
  | .ok toks =>
    match p toks with
    | .error e => .error e
    | .ok (a, rest) =>
      match rest with
      | [] => .ok a
      | r => .error (.synErr r)

def AccessParser.parse : String → Except ParseErr Access :=
  runParser parseAccessT

def PathParser.parse : String → Except ParseErr Path :=
  runParser parsePathT

def UseParser.parse : String → Except ParseErr Use :=
  runParser parseUseT

def ModuleParser.parse : String → Except ParseErr Module :=
  runParser parseModuleEntry

def ItemParser.parse : String → Except ParseErr Item :=
  runParser (fun ts => parseItemF (2 * ts.length + 4) ts)

def RegisterDefinitionParser.parse : String → Except ParseErr RegisterDefinition :=
  runParser parseRegisterEntry

def PeripheralDefinitionParser.parse : String → Except ParseErr PeripheralDefinition :=
  runParser parsePeripheralEntry

def DeviceDefinitionParser.parse : String → Except ParseErr DeviceDefinition :=
  runParser parseDeviceEntry

def ContentParser.parse (input : String) : Except ParseErr (List Item) :=
  match lexTop input.data with
  | .error e => .error (.lexErr e)
  | .ok toks => parseContentItems (2 * toks.length + 4) toks

/-! ## Derived notions used by the verified properties -/

/-- Number of `Ident` leaves of a `UseTree`; the data model makes every
`UseTree` a singly-branching chain, so this is always `1`. -/
def UseTree.identLeafCount : UseTree → Nat
  | .Ident _ => 1
  | .Path _ t => identLeafCount t

/-- A word that the lexer turns into a (non-keyword) identifier token:
non-empty, an identifier start character followed by identifier
characters, and not reserved. -/
def validIdent (s : String) : Bool :=
  match s.data with
  | [] => false
  | c :: cs => isIdentStart c && cs.all isIdentChar && (keywordTok s).isNone

/-- Printing of a segment sequence as `a::b::…` (segments joined by
`::`), at the character level. -/
def printPathChars : List String → List Char
  | [] => []
  | [s] => s.data
  | s :: rest => s.data ++ ':' :: ':' :: printPathChars rest

/-- The token image of `:: s` repetitions. -/
def restToks : List String → List Tok
  | [] => []
  | s :: rest => .colonColon :: .ident s :: restToks rest

/-- The token image of a printed path. -/
def pathToks : List String → List Tok
  | [] => []
  | s :: rest => .ident s :: restToks rest

/-! ## Verified properties -/

set_option maxRecDepth 80000

/-- C1: parsing is all-or-nothing.  A parse returns either a complete tree
or a `ParseErr` carrying the token stream starting at the first offending
token (an empty stream marks the end of input) — never a partial or
default tree.  A `use` statement missing its `;`, an unbalanced opening
brace, and a non-numeric register size each fail deterministically with a
syntax error positioned at the first offending token. -/
theorem malformed_input_fails_with_positioned_syntax_error :
    UseParser.parse ("use foo::bar") = .error (.synErr []) ∧
    ContentParser.parse ("mod foo \x7b") = .error (.synErr []) ∧
    RegisterDefinitionParser.parse ("ReadWrite register[abc] Foo \x7bbar[0],\x7d") =
      .error (.synErr [.ident ("abc"), .rbrack, .ident ("Foo"), .lbrace,
        .ident ("bar"), .lbrack, .num 0, .rbrack, .comma, .rbrace]) :=
  ⟨rfl, rfl, rfl⟩

/-- C2: `UseTree` parsing is right-associative — `"use foo::bar::Baz;"`
parses to `Path{"foo", Path{"bar", Ident "Baz"}}` — and every `UseTree`
is a singly-branching chain terminating in exactly one `Ident` leaf. -/
theorem useTree_right_associative_and_single_ident_leaf :
    UseParser.parse ("use foo::bar::Baz;") =
      .ok { tree := .Path ("foo") (.Path ("bar") (.Ident ("Baz"))) } ∧
    ∀ t : UseTree, t.identLeafCount = 1 := by
  refine ⟨rfl, ?_⟩
  intro t
  induction t with
  | Ident _ => rfl
  | Path _ _ ih => simpa [UseTree.identLeafCount] using ih

/-- C2 witness: the theorem instantiated at a concrete chain. -/
theorem useTree_right_associative_witness :
    (UseTree.Path ("a") (.Ident ("b"))).identLeafCount = 1 :=
  useTree_right_associative_and_single_ident_leaf.2 (.Path ("a") (.Ident ("b")))

/-- C3: `"mod foo;"` parses to a terminal module with `content = None`,
and `"mod foo {mod bar {mod baz;}}"` parses to the three-level nested
structure foo → Some [bar] → Some [baz] → None. -/
theorem module_terminal_and_nested_block_parse :
    ModuleParser.parse ("mod foo;") = .ok { ident := "foo", content := none } ∧
    ModuleParser.parse ("mod foo \x7bmod bar \x7bmod baz;\x7d\x7d") =
      .ok { ident := "foo",
            content := some [.module ("bar") (some [.module ("baz") none])] } :=
  ⟨rfl, rfl⟩

/-- C6: inside the doc-tested peripheral, the array slot
`"bax: [bax::Bax; 2] @ 0x04"` yields a `Single` slot whose instance has
`ty = RegisterType.Array{path = bax::Bax, size = 2}` and offset `0x04`,
while the unbracketed `"bar: bar::Bar @ 0x00"` yields
`ty = RegisterType.Single{path = bar::Bar}`. -/
theorem array_slot_register_type :
    PeripheralDefinitionParser.parse ("peripheral Foo \x7b\n   bar: bar::Bar @ 0x00,\n   bax: [bax::Bax; 2] @ 0x04,\n\x7d") =
      .ok { ident := "Foo", description := none, registers := [
        .Single { ident := "bar", ty := .Single { segments := ["bar", "Bar"] } } 0,
        .Single { ident := "bax", ty := .Array { segments := ["bax", "Bax"] } 2 } 4] } :=
  rfl

/-- C7: an explicit reset clause `= 0x00` or `= 0` yields
`reset_value = some 0` (hexadecimal and decimal both accepted), and
omitting the clause yields `reset_value = none`. -/
theorem register_reset_value_clause :
    RegisterDefinitionParser.parse ("ReadWrite register[8] Foo = 0x00 \x7bbar[0..7],\x7d") =
      .ok { access := .ReadWrite, ident := "Foo", description := none, size := 8,
            reset_value := some 0,
            fields := [{ ident := "bar", description := none, bit_start := 0,
                         bit_end := 7, access := none }] } ∧
    RegisterDefinitionParser.parse ("ReadWrite register[8] Foo = 0 \x7bbar[0..7],\x7d") =
      .ok { access := .ReadWrite, ident := "Foo", description := none, size := 8,
            reset_value := some 0,
            fields := [{ ident := "bar", description := none, bit_start := 0,
                         bit_end := 7, access := none }] } ∧
    RegisterDefinitionParser.parse ("ReadWrite register[8] Foo \x7bbar[0..7],\x7d") =
      .ok { access := .ReadWrite, ident := "Foo", description := none, size := 8,
            reset_value := none,
            fields := [{ ident := "bar", description := none, bit_start := 0,
                         bit_end := 7, access := none }] } :=
  ⟨rfl, rfl, rfl⟩

/-- C10: the reserved word `crate` is accepted as the leading segment of a
use path — `"use crate::bar::Baz;"` parses inside content — while other
keywords remain reserved: `"use mod::Baz;"` is a syntax error. -/
theorem crate_leading_use_path_accepted :
    ContentParser.parse ("use crate::bar::Baz;") =
      .ok [.use { tree := .Path ("crate") (.Path ("bar") (.Ident ("Baz"))) }] ∧
    ContentParser.parse ("use mod::Baz;") =
      .error (.synErr [.kwMod, .colonColon, .ident ("Baz"), .semi]) :=
  ⟨rfl, rfl⟩

/-- An attribute parse returns a suffix of its input: every token it
leaves unconsumed was present in the original stream. -/
theorem parseAttr_sub {ts ts1 : List Tok} {d : Option String}
    (h : parseAttr ts = .ok (d, ts1)) : ∀ x ∈ ts1, x ∈ ts := by
  unfold parseAttr at h
  split at h
  · split at h
    · split at h
      · cases h
        intro x hx
        simp [List.mem_cons, hx]
      · exact absurd h (by simp)
    · exact absurd h (by simp)
  · cases h
    exact fun _ hx => hx

/-- A field whose bracket part carries no `..` range token gets
`bit_start = bit_end` (the single-index rule). -/
theorem parseFieldCore_no_range {desc : Option String} {acc : Option Access}
    {ts2 rest : List Tok} {f : FieldInstance}
    (h : parseFieldCore desc acc ts2 = .ok (f, rest))
    (hnd : Tok.dotdot ∉ ts2) : f.bit_start = f.bit_end := by
  unfold parseFieldCore at h
  split at h
  · split at h
    · exact absurd (by simp) hnd
    · cases h
      rfl
    · exact absurd h (by simp)
  · exact absurd h (by simp)

/-- A successfully parsed field with no `..` token in its source gets
`bit_start = bit_end`. -/
theorem parseField_single_index {ts rest : List Tok} {f : FieldInstance}
    (h : parseField ts = .ok (f, rest)) (hnd : Tok.dotdot ∉ ts) :
    f.bit_start = f.bit_end := by
  unfold parseField at h
  split at h
  · exact absurd h (by simp)
  · rename_i desc ts1 heq
    have hsub := parseAttr_sub heq
    split at h
    all_goals
      refine parseFieldCore_no_range h fun hmem => hnd ?_
    · exact hsub _ (by simp [List.mem_cons, hmem])
    · exact hsub _ (by simp [List.mem_cons, hmem])
    · exact hsub _ (by simp [List.mem_cons, hmem])
    · exact hsub _ hmem

/-- C4 counterexample: the claimed invariant `bit_start ≤ bit_end` fails
on the code — the grammar copies a written range verbatim, so the
successfully parsed field `bar[1..0]` has `bit_start = 1 > 0 = bit_end`. -/
theorem field_bit_range_invariant_counterexample :
    RegisterDefinitionParser.parse ("ReadWrite register[8] Foo \x7bbar[1..0],\x7d") =
      .ok { access := .ReadWrite, ident := "Foo", description := none, size := 8,
            reset_value := none,
            fields := [{ ident := "bar", description := none, bit_start := 1,
                         bit_end := 0, access := none }] } ∧
    ¬ (1 : Nat) ≤ 0 :=
  ⟨rfl, by decide⟩

/-- C4 (amended): in the doc-tested register, `bar[0..7]` yields
`bit_start = 0, bit_end = 7`, `baz[8]` yields `bit_start = bit_end = 8`, a
field without a leading access keyword gets `access = none` and one with a
leading keyword gets `access = some _`; and every field parsed without a
`..` range token satisfies `bit_start = bit_end` (hence the invariant),
while a ranged field takes exactly the written endpoints. -/
theorem field_bit_indices_amended :
    RegisterDefinitionParser.parse (" \n#[doc = \"Some description\"]\nWriteOnly register[32] Foo = 0 \x7b\n   bar[0..7],\n   ReadOnly baz[8],\n   #[doc = \"Some description\"]\n   bax[9..31],\n\x7d") =
      .ok { access := .WriteOnly, ident := "Foo", description := some ("Some description"),
            size := 32, reset_value := some 0, fields := [
        { ident := "bar", description := none, bit_start := 0, bit_end := 7,
          access := none },
        { ident := "baz", description := none, bit_start := 8, bit_end := 8,
          access := some .ReadOnly },
        { ident := "bax", description := some ("Some description"), bit_start := 9,
          bit_end := 31, access := none }] } ∧
    ∀ (ts : List Tok) (f : FieldInstance) (rest : List Tok),
      parseField ts = .ok (f, rest) → Tok.dotdot ∉ ts → f.bit_start = f.bit_end :=
  ⟨rfl, fun _ _ _ h hnd => parseField_single_index h hnd⟩

/-- C4 witness: the amended single-index rule instantiated at the
concrete field source `f[5]`. -/
theorem field_bit_indices_amended_witness :
    ({ ident := "f", description := none, bit_start := 5, bit_end := 5,
       access := none } : FieldInstance).bit_start =
    ({ ident := "f", description := none, bit_start := 5, bit_end := 5,
       access := none } : FieldInstance).bit_end :=
  field_bit_indices_amended.2 [.ident ("f"), .lbrack, .num 5, .rbrack]
    { ident := "f", description := none, bit_start := 5, bit_end := 5, access := none }
    [] rfl (by decide)

/-- Every element of a comma-separated list continuation comes from a run
of the element parser. -/
theorem sepListRest_mem {α : Type} {elem : List Tok → Except ParseErr (α × List Tok)} :
    ∀ {fuel : Nat} {ts r : List Tok} {xs : List α},
      sepListRest elem fuel ts = .ok (xs, r) →
      ∀ x ∈ xs, ∃ ts2 r2, elem ts2 = .ok (x, r2) := by
  intro fuel
  induction fuel with
  | zero =>
    intro ts r xs h x hx
    rw [sepListRest.eq_def] at h
    split at h
    · cases h
      simp at hx
    · cases h
      simp at hx
    · split at h
      · cases h
      · omega
    · cases h
  | succ fuel ih =>
    intro ts r xs h x hx
    rw [sepListRest.eq_def] at h
    split at h
    · cases h
      simp at hx
    · cases h
      simp at hx
    · rename_i ts2 hneg
      split at h
      · omega
      · rename_i fuel2 hfuel
        obtain rfl : fuel2 = fuel := by omega
        split at h
        · rename_i x0 r0 helem
          split at h
          · rename_i xs2 r2 hrest
            cases h
            rcases List.mem_cons.mp hx with hx | hx
            · exact ⟨ts2, r0, hx ▸ helem⟩
            · exact ih hrest x hx
          · cases h
        · cases h
    · cases h

/-- Every element of a parsed comma-separated list comes from a run of
the element parser. -/
theorem sepList_mem {α : Type} {elem : List Tok → Except ParseErr (α × List Tok)}
    {fuel : Nat} {ts r : List Tok} {xs : List α}
    (h : sepList elem fuel ts = .ok (xs, r)) :
    ∀ x ∈ xs, ∃ ts2 r2, elem ts2 = .ok (x, r2) := by
  unfold sepList at h
  split at h
  · rename_i x0 r0 helem
    split at h
    · rename_i xs2 r2 hrest
      cases h
      intro x hx
      rcases List.mem_cons.mp hx with hx | hx
      · exact ⟨ts, r0, hx ▸ helem⟩
      · exact sepListRest_mem hrest x hx
    · exact absurd h (by simp)
  · exact absurd h (by simp)

/-- A slot that parses to the `Overloaded` variant always has at least
two alternatives: the grammar demands `"(" alt ("|" alt)+ ")"`. -/
theorem parseSlot_overloaded_len {ts r : List Tok}
    {alts : List RegisterInstance} {off : Nat}
    (h : parseSlot ts = .ok (.Overloaded alts off, r)) : 2 ≤ alts.length := by
  unfold parseSlot at h
  repeat' split at h
  all_goals cases h
  all_goals simp

/-- A successful whole-string parse comes from a successful run of the
underlying production that consumed the whole token stream. -/
theorem runParser_ok {α : Type} {p : List Tok → Except ParseErr (α × List Tok)}
    {input : String} {a : α} (h : runParser p input = .ok a) :
    ∃ ts r, p ts = .ok (a, r) := by
  unfold runParser at h
  split at h
  · exact absurd h (by simp)
  · rename_i toks hlex
    split at h
    · exact absurd h (by simp)
    · rename_i a2 rest hp
      split at h
      · cases h
        exact ⟨toks, _, hp⟩
      · exact absurd h (by simp)

/-- Every `Overloaded` slot of a successfully parsed peripheral has at
least two alternatives. -/
theorem parsePeripheralEntry_overloaded {ts r : List Tok} {p : PeripheralDefinition}
    {alts : List RegisterInstance} {off : Nat}
    (h : parsePeripheralEntry ts = .ok (p, r))
    (hmem : RegisterSlot.Overloaded alts off ∈ p.registers) : 2 ≤ alts.length := by
  unfold parsePeripheralEntry at h
  split at h
  · exact absurd h (by simp)
  · rename_i desc ts1 heq
    unfold parsePeripheralBody at h
    split at h
    · split at h
      · rename_i slots r2 hsep
        cases h
        obtain ⟨ts2, r3, hslot⟩ := sepList_mem hsep _ hmem
        exact parseSlot_overloaded_len hslot
      · exact absurd h (by simp)
    · exact absurd h (by simp)

/-- C5: the grouped slot syntax requires at least two `|`-separated
alternatives sharing one offset: the doc-tested three-alternative group
parses to an `Overloaded` slot with exactly 3 alternatives at offset
`0x10`, a one-alternative group is a syntax error, and every `Overloaded`
slot of any successfully parsed peripheral has `≥ 2` alternatives. -/
theorem overloaded_slot_at_least_two_alternatives :
    PeripheralDefinitionParser.parse ("peripheral Foo \x7b\n   (baz1: baz::Baz1 | baz2: baz::Baz2 | baz3: baz::Baz3) @ 0x10,\n\x7d") =
      .ok { ident := "Foo", description := none, registers := [
        .Overloaded [
          { ident := "baz1", ty := .Single { segments := ["baz", "Baz1"] } },
          { ident := "baz2", ty := .Single { segments := ["baz", "Baz2"] } },
          { ident := "baz3", ty := .Single { segments := ["baz", "Baz3"] } }] 16] } ∧
    PeripheralDefinitionParser.parse ("peripheral Foo \x7b(baz1: baz::Baz1) @ 0x10,\x7d") =
      .error (.synErr [.rparen, .atSign, .num 16, .comma, .rbrace]) ∧
    ∀ (input : String) (p : PeripheralDefinition)
      (alts : List RegisterInstance) (off : Nat),
      PeripheralDefinitionParser.parse input = .ok p →
      RegisterSlot.Overloaded alts off ∈ p.registers → 2 ≤ alts.length := by
  refine ⟨rfl, rfl, ?_⟩
  intro input p alts off h hmem
  unfold PeripheralDefinitionParser.parse at h
  obtain ⟨ts, r, hok⟩ := runParser_ok h
  exact parsePeripheralEntry_overloaded hok hmem

/-- C5 witness: the invariant instantiated at a concrete two-alternative
peripheral. -/
theorem overloaded_slot_witness :
    2 ≤ ([{ ident := "a", ty := .Single { segments := ["A"] } },
          { ident := "b", ty := .Single { segments := ["B"] } }] :
            List RegisterInstance).length :=
  overloaded_slot_at_least_two_alternatives.2.2
    ("peripheral F \x7b(a: A | b: B) @ 0,\x7d")
    { ident := "F", description := none, registers := [
      .Overloaded [
        { ident := "a", ty := .Single { segments := ["A"] } },
        { ident := "b", ty := .Single { segments := ["B"] } }] 0] }
    [{ ident := "a", ty := .Single { segments := ["A"] } },
     { ident := "b", ty := .Single { segments := ["B"] } }] 0
    rfl (by simp)

/-- Parsing one item and then the remaining content parses the whole
content, prepending that item: content is an item-by-item left-to-right
fold, so source order is preserved. -/
theorem parseContentItems_step {fuel : Nat} {ts r : List Tok} {it : Item}
    {items : List Item} (hne : ts ≠ []) (hit : parseItemF fuel ts = .ok (it, r))
    (hrest : parseContentItems fuel r = .ok items) :
    parseContentItems (fuel + 1) ts = .ok (it :: items) := by
  cases ts with
  | nil => exact absurd rfl hne
  | cons a as => simp [parseContentItems, hit, hrest]

/-- C9: `Content` accepts an arbitrary interleaving of the five item
kinds — here a device, a use, a terminal module, a register, a
peripheral, and a block module with nested content, in that source
order — and the output sequence preserves source order; in general the
content parse is the left-to-right fold of single-item parses. -/
theorem content_interleaving_preserves_order :
    ContentParser.parse ("device D \x7b p: P @ 0x00, \x7d use a::B; mod m; ReadOnly register[8] R \x7b f[0], \x7d peripheral Q \x7b r: R @ 0x00, \x7d mod n \x7b use C; \x7d") =
      .ok [
        .device { ident := "D", description := none,
                  peripherals := [{ ident := "p", path := { segments := ["P"] },
                                    address := 0 }] },
        .use { tree := .Path ("a") (.Ident ("B")) },
        .module ("m") none,
        .register { access := .ReadOnly, ident := "R", description := none,
                    size := 8, reset_value := none,
                    fields := [{ ident := "f", description := none, bit_start := 0,
                                 bit_end := 0, access := none }] },
        .peripheral { ident := "Q", description := none,
                      registers :=
                        [.Single { ident := "r", ty := .Single { segments := ["R"] } } 0] },
        .module ("n") (some [.use { tree := .Ident ("C") }]) ] ∧
    ∀ (fuel : Nat) (ts r : List Tok) (it : Item) (items : List Item),
      ts ≠ [] → parseItemF fuel ts = .ok (it, r) →
      parseContentItems fuel r = .ok items →
      parseContentItems (fuel + 1) ts = .ok (it :: items) :=
  ⟨rfl, fun _ _ _ _ _ hne hit hrest => parseContentItems_step hne hit hrest⟩

/-- C9 witness: the fold step instantiated on two concrete `use`
statements. -/
theorem content_interleaving_witness :
    parseContentItems 10 [.kwUse, .ident ("A"), .semi, .kwUse, .ident ("B"), .semi] =
      .ok [.use { tree := .Ident ("A") }, .use { tree := .Ident ("B") }] :=
  content_interleaving_preserves_order.2 9
    [.kwUse, .ident ("A"), .semi, .kwUse, .ident ("B"), .semi]
    [.kwUse, .ident ("B"), .semi] (.use { tree := .Ident ("A") })
    [.use { tree := .Ident ("B") }] (by decide) rfl rfl

/-- `takeWhile` passes over a block of satisfying elements. -/
theorem takeWhile_append_block {p : Char → Bool} :
    ∀ {l1 l2 : List Char}, (∀ x ∈ l1, p x = true) →
      List.takeWhile p (l1 ++ l2) = l1 ++ List.takeWhile p l2 := by
  intro l1
  induction l1 with
  | nil => intro l2 _; simp
  | cons a l ih =>
    intro l2 hall
    have ha : p a = true := hall a (by simp)
    simp [List.takeWhile_cons_of_pos ha, ih (fun x hx => hall x (by simp [hx]))]

/-- `dropWhile` drops a block of satisfying elements. -/
theorem dropWhile_append_block {p : Char → Bool} :
    ∀ {l1 l2 : List Char}, (∀ x ∈ l1, p x = true) →
      List.dropWhile p (l1 ++ l2) = List.dropWhile p l2 := by
  intro l1
  induction l1 with
  | nil => intro l2 _; simp
  | cons a l ih =>
    intro l2 hall
    have ha : p a = true := hall a (by simp)
    simp [List.dropWhile_cons_of_pos ha, ih (fun x hx => hall x (by simp [hx]))]

/-- Decomposition of a valid identifier word. -/
theorem validIdent_parts {s : String} (h : validIdent s = true) :
    ∃ c cs, s.data = c :: cs ∧ isIdentStart c = true ∧
      (∀ x ∈ cs, isIdentChar x = true) ∧ keywordTok s = none := by
  unfold validIdent at h
  split at h
  · cases h
  · rename_i c cs hdata
    simp only [Bool.and_eq_true, List.all_eq_true, Option.isNone_iff_eq_none] at h
    exact ⟨c, cs, hdata, h.1.1, h.1.2, h.2⟩

/-- A non-reserved word lexes to an identifier token. -/
theorem mkWord_ident {s : String} (h : keywordTok s = none) :
    mkWord s = .ident s := by
  simp [mkWord, h]

/-- Structure eta for strings. -/
theorem stringMk_data (s : String) : String.mk s.data = s := rfl

/-- One lexer step over a valid identifier word followed by input that
does not extend it. -/
theorem lexF_ident_step {s : String} (hv : validIdent s = true)
    {more : List Char} (hm : ∀ c cs, more = c :: cs → isIdentChar c = false)
    {fuel : Nat} {ts : List Tok} (h : lexF fuel more = .ok ts) :
    lexF (fuel + 1) (s.data ++ more) = .ok (.ident s :: ts) := by
  obtain ⟨c, cs, hdata, hstart, hall, hkw⟩ := validIdent_parts hv
  have htake : List.takeWhile isIdentChar (cs ++ more) = cs := by
    rw [takeWhile_append_block hall]
    cases more with
    | nil => simp
    | cons m ms =>
      rw [List.takeWhile_cons_of_neg (by simp [hm m ms rfl])]
      simp
  have hdrop : List.dropWhile isIdentChar (cs ++ more) = more := by
    rw [dropWhile_append_block hall]
    cases more with
    | nil => simp
    | cons m ms => rw [List.dropWhile_cons_of_neg (by simp [hm m ms rfl])]
  rw [hdata]
  show lexF (fuel + 1) (c :: (cs ++ more)) = .ok (.ident s :: ts)
  simp only [lexF]
  rw [if_pos hstart, htake, hdrop, h]
  rw [show String.mk (c :: cs) = s from hdata ▸ stringMk_data s]
  rw [mkWord_ident hkw]

/-- One lexer step over the `::` operator. -/
theorem lexF_coloncolon_step {fuel : Nat} {l : List Char} {ts : List Tok}
    (h : lexF fuel l = .ok ts) :
    lexF (fuel + 1) (':' :: ':' :: l) = .ok (.colonColon :: ts) := by
  have e : lexF (fuel + 1) (':' :: ':' :: l) =
      (match lexF fuel l with
       | .ok ts2 => Except.ok (Tok.colonColon :: ts2)
       | .error e => Except.error e) := rfl
  rw [e, h]

/-- The lexer turns a printed path into its token image. -/
theorem lexF_printPath :
    ∀ (segs : List String) (fuel : Nat), segs ≠ [] →
      (∀ s ∈ segs, validIdent s = true) → 2 * segs.length ≤ fuel →
      lexF fuel (printPathChars segs) = .ok (pathToks segs) := by
  intro segs
  induction segs with
  | nil => intro fuel h; exact absurd rfl h
  | cons s rest ih =>
    intro fuel hne hv hfuel
    cases rest with
    | nil =>
      obtain ⟨f, rfl⟩ : ∃ f, fuel = f + 1 := ⟨fuel - 1, by simp at hfuel; omega⟩
      have h0 : lexF f ([] : List Char) = .ok [] := by cases f <;> rfl
      have hstep := lexF_ident_step (hv s (by simp)) (fun c cs hcc => by cases hcc) h0
      simpa [printPathChars, pathToks, restToks] using hstep
    | cons t rest2 =>
      obtain ⟨f, rfl⟩ : ∃ f, fuel = f + 2 := ⟨fuel - 2, by simp at hfuel; omega⟩
      have hrest : lexF f (printPathChars (t :: rest2)) = .ok (pathToks (t :: rest2)) :=
        ih f (by simp) (fun x hx => hv x (by simp [hx])) (by simp at hfuel ⊢; omega)
      have hcol := lexF_coloncolon_step hrest
      have hm : ∀ c cs,
          (':' :: ':' :: printPathChars (t :: rest2)) = c :: cs →
          isIdentChar c = false := by
        intro c cs hcc
        cases hcc
        rfl
      have hmain := lexF_ident_step (hv s (by simp)) hm hcol
      have hpr : printPathChars (s :: t :: rest2) =
          s.data ++ ':' :: ':' :: printPathChars (t :: rest2) := rfl
      have hpt : pathToks (s :: t :: rest2) =
          .ident s :: .colonColon :: pathToks (t :: rest2) := by
        simp [pathToks, restToks]
      rw [hpr, hpt]
      exact hmain

/-- A printed non-empty path of valid identifiers is long enough to fuel
its own lex. -/
theorem printPathChars_length :
    ∀ segs : List String, (∀ s ∈ segs, validIdent s = true) →
      2 * segs.length ≤ (printPathChars segs).length + 1 := by
  intro segs
  induction segs with
  | nil => intro _; simp
  | cons s rest ih =>
    intro hv
    have hs : 1 ≤ s.data.length := by
      obtain ⟨c, cs, hdata, _⟩ := validIdent_parts (hv s (by simp))
      simp [hdata]
    have hrest := ih (fun x hx => hv x (by simp [hx]))
    cases rest with
    | nil =>
      rw [show printPathChars [s] = s.data from rfl]
      simp
      exact hs
    | cons t r2 =>
      rw [show printPathChars (s :: t :: r2) =
            s.data ++ ':' :: ':' :: printPathChars (t :: r2) from rfl]
      simp at hrest ⊢
      have hs2 : 1 ≤ s.length := hs
      omega

/-- Token image length of the `:: s` repetitions. -/
theorem restToks_length : ∀ segs : List String,
    (restToks segs).length = 2 * segs.length := by
  intro segs
  induction segs with
  | nil => rfl
  | cons s rest ih =>
    simp [restToks, ih]
    omega

/-- The path continuation parser consumes exactly the token image of the
remaining segments. -/
theorem parsePathRest_restToks :
    ∀ (segs : List String) (fuel : Nat), segs.length ≤ fuel →
      parsePathRest fuel (restToks segs) = (segs, []) := by
  intro segs
  induction segs with
  | nil => intro fuel _; cases fuel <;> rfl
  | cons s rest ih =>
    intro fuel hf
    obtain ⟨f, rfl⟩ : ∃ f, fuel = f + 1 := ⟨fuel - 1, by simp at hf; omega⟩
    have hr := ih f (by simp at hf; omega)
    simp [restToks, parsePathRest, hr]

/-- C8: for every non-empty sequence of (valid, non-reserved) identifier
segments, printing it as `a::b::…` — segments joined by `::` — and
parsing the result with the `Path` parser reproduces exactly the same
ordered segment sequence. -/
theorem path_print_parse_roundtrip (segs : List String) (hne : segs ≠ [])
    (hv : ∀ s ∈ segs, validIdent s = true) :
    PathParser.parse (String.mk (printPathChars segs)) = .ok { segments := segs } := by
  have hlex : lexTop (printPathChars segs) = .ok (pathToks segs) :=
    lexF_printPath segs ((printPathChars segs).length + 1) hne hv
      (printPathChars_length segs hv)
  unfold PathParser.parse runParser
  rw [show (String.mk (printPathChars segs)).data = printPathChars segs from rfl]
  rw [hlex]
  obtain ⟨s, rest, rfl⟩ : ∃ s rest, segs = s :: rest := by
    cases segs with
    | nil => exact absurd rfl hne
    | cons a b => exact ⟨a, b, rfl⟩
  have hrest : parsePathRest ((restToks rest).length + 1) (restToks rest) = (rest, []) :=
    parsePathRest_restToks rest _ (by rw [restToks_length]; omega)
  show (match parsePathT (pathToks (s :: rest)) with
        | .error e => Except.error e
        | .ok (a, rest2) =>
          match rest2 with
          | [] => Except.ok a
          | r => Except.error (.synErr r)) = .ok { segments := s :: rest }
  rw [show pathToks (s :: rest) = .ident s :: restToks rest from rfl]
  simp [parsePathT, hrest]

/-- C8 witness: the round-trip instantiated at `["foo", "bar", "baz"]`,
whose printing is `"foo::bar::baz"`. -/
theorem path_print_parse_roundtrip_witness :
    PathParser.parse (String.mk (printPathChars ["foo", "bar", "baz"])) =
      .ok { segments := ["foo", "bar", "baz"] } :=
  path_print_parse_roundtrip ["foo", "bar", "baz"] (by decide) (by decide)

end Racr
